import Mathlib

/-
Verification of the event-sourced URL-shortener service in `src/main.rs`.

The Rust service keeps three fields: `links : HashMap<Slug, ShortLink>`,
`stats : HashMap<Slug, Stats>` and `event_store : Vec<Event>`.  HashMaps are
modelled as association lists (first occurrence of a key is the binding;
`insert` replaces the value at an existing key and appends a fresh key, and
`get_mut`-style updates rewrite the value at the first occurrence in place).
The `u64` redirect counter is modelled as a `Nat` reduced modulo 2^64 at the
single place the source increments it.  The `subsec_nanos` entropy source is
modelled as an explicit `candidate` argument: each call to
`handle_create_short_link` receives the string the source would have drawn.
A `none` result of `handle_create_short_link` marks the one control path on
which the Rust source does not terminate (the retry loop whose condition
tests a shadowed, never-reassigned binding).
-/

namespace LinkShortener

/-- Slug models the Rust newtype `Slug(pub String)`. -/
structure Slug where
  val : String
deriving DecidableEq, Repr

/-- Url models the Rust newtype `Url(pub String)`. -/
structure Url where
  val : String
deriving DecidableEq, Repr

/-- ShortLink models the Rust struct with fields `slug` and `url`. -/
structure ShortLink where
  slug : Slug
  url : Url
deriving DecidableEq, Repr

/-- Stats models the Rust struct with fields `link` and `redirects : u64`;
the counter is a `Nat` kept below 2^64 by the increment site. -/
structure Stats where
  link : ShortLink
  redirects : Nat
deriving DecidableEq, Repr

/-- ShortenerError models the Rust error enum. -/
inductive ShortenerError where
  | InvalidUrl
  | SlugAlreadyInUse
  | SlugNotFound
deriving DecidableEq, Repr

/-- Event models the Rust enum `Event` with variants `LinkCreated(ShortLink)`
and `LinkRedirected(Slug)`. -/
inductive Event where
  | LinkCreated (link : ShortLink)
  | LinkRedirected (slug : Slug)
deriving DecidableEq, Repr

/-- Lookup of the value bound to a key: models `HashMap::get`. -/
def findVal (k : Slug) : List (Slug × α) → Option α
  | [] => none
  | (k₂, v) :: t => if k₂ = k then some v else findVal k t

/-- Key membership test: models `HashMap::contains_key`. -/
def containsKey (k : Slug) (l : List (Slug × α)) : Bool :=
  (findVal k l).isSome

/-- Rewrite the value at the first occurrence of a key, as a
`HashMap::get_mut` followed by a field update does. -/
def modifyVal (k : Slug) (f : α → α) : List (Slug × α) → List (Slug × α)
  | [] => []
  | (k₂, v) :: t => if k₂ = k then (k₂, f v) :: t else (k₂, v) :: modifyVal k f t

/-- Insertion that models `HashMap::insert`: replace the binding when the key
is present, append it when it is not. -/
def insertVal (k : Slug) (v : α) (l : List (Slug × α)) : List (Slug × α) :=
  if containsKey k l then modifyVal k (fun _ => v) l else l ++ [(k, v)]

/-- UrlShortenerService models the Rust struct of the same name: the two
projected tables plus the append-only event store. -/
structure UrlShortenerService where
  links : List (Slug × ShortLink)
  stats : List (Slug × Stats)
  event_store : List Event
deriving DecidableEq, Repr

/-- UrlShortenerService.new models `UrlShortenerService::new`. -/
def UrlShortenerService.new : UrlShortenerService :=
  { links := [], stats := [], event_store := [] }

/-- Shared tail of `handle_create_short_link` once a slug has been chosen
(lines 195-210 of the source): build the ShortLink, insert it into `links`,
insert a zero-counter Stats into `stats`, push a `LinkCreated` event. -/
def commitCreate (s : UrlShortenerService) (url : Url) (slug : Slug) :
    ShortLink × UrlShortenerService :=
  let short_link : ShortLink := { slug := slug, url := url }
  (short_link,
    { links := insertVal slug short_link s.links
      stats := insertVal slug { link := short_link, redirects := 0 } s.stats
      event_store := s.event_store ++ [Event.LinkCreated short_link] })

/-- handle_create_short_link models the command handler of the source.
`candidate` is the slug the `subsec_nanos` entropy source draws when no slug
is requested.  In the source the retry loop `while links.contains_key(..)`
shadows `random_slug` inside its body, so its condition never changes: if the
drawn candidate is already a key the loop never terminates, which the model
renders as `none`; otherwise the loop body never runs and the candidate is
used. -/
def handle_create_short_link (s : UrlShortenerService) (url : Url)
    (slug : Option Slug) (candidate : Slug) :
    Option (Except ShortenerError ShortLink × UrlShortenerService) :=
  match slug with
  | some sl =>
    if containsKey sl s.links then
      some (Except.error ShortenerError.SlugAlreadyInUse, s)
    else
      let r := commitCreate s url sl
      some (Except.ok r.1, r.2)
  | none =>
    if containsKey candidate s.links then
      none
    else
      let r := commitCreate s url candidate
      some (Except.ok r.1, r.2)

/-- handle_redirect models the source lines 213-223: on a hit in `links` it
returns the stored ShortLink and, only when `stats` also has the slug,
increments the counter and pushes a `LinkRedirected` event; on a miss it
fails with `SlugNotFound`. -/
def handle_redirect (s : UrlShortenerService) (slug : Slug) :
    Except ShortenerError ShortLink × UrlShortenerService :=
  match findVal slug s.links with
  | some short_link =>
    match findVal slug s.stats with
    | some _ =>
      (Except.ok short_link,
        { s with
            stats := modifyVal slug
              (fun st => { st with redirects := (st.redirects + 1) % 2 ^ 64 }) s.stats
            event_store := s.event_store ++ [Event.LinkRedirected slug] })
    | none => (Except.ok short_link, s)
  | none => (Except.error ShortenerError.SlugNotFound, s)

/-- get_stats models the query handler of the source lines 227-232: a pure
read of the `stats` table (the Rust method takes `&self` and can mutate
nothing). -/
def get_stats (s : UrlShortenerService) (slug : Slug) :
    Except ShortenerError Stats :=
  match findVal slug s.stats with
  | some st => Except.ok st
  | none => Except.error ShortenerError.SlugNotFound

/-- Command records one call to the public surface of the service, with the
entropy draw of a slugless create made explicit. -/
inductive Command where
  | create (url : Url) (slug : Option Slug) (candidate : Slug)
  | redirect (slug : Slug)
  | stats (slug : Slug)
deriving DecidableEq, Repr

/-- Step applies one call to the service; `none` marks the diverging retry
loop. `get_stats` reads only. -/
def step (s : UrlShortenerService) : Command → Option UrlShortenerService
  | Command.create url sl cand =>
    (handle_create_short_link s url sl cand).map Prod.snd
  | Command.redirect sl => some (handle_redirect s sl).2
  | Command.stats _ => some s

/-- Run folds a call sequence from a starting state. -/
def run (s : UrlShortenerService) : List Command → Option UrlShortenerService
  | [] => some s
  | c :: cs => (step s c).bind (fun s₂ => run s₂ cs)

/-- RunOutputs also collects the ShortLinks returned by the successful
create calls of the sequence, in order. -/
def runOutputs (s : UrlShortenerService) :
    List Command → Option (UrlShortenerService × List ShortLink)
  | [] => some (s, [])
  | Command.create url sl cand :: cs =>
    match handle_create_short_link s url sl cand with
    | none => none
    | some (Except.ok l, s₂) =>
      (runOutputs s₂ cs).map (fun r => (r.1, l :: r.2))
    | some (Except.error _, s₂) => runOutputs s₂ cs
  | Command.redirect sl :: cs => runOutputs (handle_redirect s sl).2 cs
  | Command.stats _ :: cs => runOutputs s cs

/-- Projection bundles the two tables replay rebuilds.  Modelled from the
spec: the source records events but ships no standalone `fold`/`replay`
function, so the projected pair (link table, stats table) of §4.3 is its
own type here. -/
structure Projection where
  links : List (Slug × ShortLink)
  stats : List (Slug × Stats)
deriving DecidableEq, Repr

/-- Fold of one event into a projection.  Modelled from the spec: §4.3 —
`LinkCreated` inserts the link and a zero-counter Stats; `LinkRedirected`
increments `redirects` on the matching Stats entry, and a missing entry is a
fatal consistency error, rendered `none`. -/
def fold (p : Projection) : Event → Option Projection
  | Event.LinkCreated l =>
    some
      { links := insertVal l.slug l p.links
        stats := insertVal l.slug { link := l, redirects := 0 } p.stats }
  | Event.LinkRedirected sl =>
    if containsKey sl p.stats then
      some
        { p with
            stats := modifyVal sl
              (fun st => { st with redirects := (st.redirects + 1) % 2 ^ 64 }) p.stats }
    else
      none

/-- Replay folds an event sequence from the empty projection.  Modelled from
the spec: §4.3, `replay(events) = repeated fold from the empty state`. -/
def replay (es : List Event) : Option Projection :=
  es.foldlM fold { links := [], stats := [] }

/-- Abbreviation for the post-state of a successful create. -/
def createdState (s : UrlShortenerService) (url : Url) (sl : Slug) :
    UrlShortenerService :=
  { links := insertVal sl { slug := sl, url := url } s.links
    stats := insertVal sl { link := { slug := sl, url := url }, redirects := 0 } s.stats
    event_store := s.event_store ++ [Event.LinkCreated { slug := sl, url := url }] }

/-- Iterated redirect on one slug: the state after n further calls of
`handle_redirect` on `sl`. -/
def iterRedirect (s : UrlShortenerService) (sl : Slug) : Nat → UrlShortenerService
  | 0 => s
  | n + 1 => iterRedirect (handle_redirect s sl).2 sl n

/-! Basic lemmas about the association-list model of `HashMap`. -/

theorem findVal_modifyVal_self (k : Slug) (f : α → α) (l : List (Slug × α)) :
    findVal k (modifyVal k f l) = (findVal k l).map f := by
  induction l with
  | nil => simp [findVal, modifyVal]
  | cons h t ih =>
    obtain ⟨k₂, v⟩ := h
    by_cases hk : k₂ = k <;> simp [findVal, modifyVal, hk, ih]

theorem findVal_modifyVal_ne (k k₂ : Slug) (hne : k ≠ k₂) (f : α → α)
    (l : List (Slug × α)) : findVal k₂ (modifyVal k f l) = findVal k₂ l := by
  induction l with
  | nil => simp [findVal, modifyVal]
  | cons h t ih =>
    obtain ⟨k₃, v⟩ := h
    by_cases hk : k₃ = k
    · subst hk
      simp [findVal, modifyVal, hne]
    · simp [findVal, modifyVal, hk, ih]

theorem containsKey_modifyVal (k k₂ : Slug) (f : α → α) (l : List (Slug × α)) :
    containsKey k₂ (modifyVal k f l) = containsKey k₂ l := by
  by_cases hk : k = k₂
  · subst hk
    simp [containsKey, findVal_modifyVal_self]
  · simp [containsKey, findVal_modifyVal_ne k k₂ hk]

theorem keys_modifyVal (k : Slug) (f : α → α) (l : List (Slug × α)) :
    (modifyVal k f l).map Prod.fst = l.map Prod.fst := by
  induction l with
  | nil => simp [modifyVal]
  | cons h t ih =>
    obtain ⟨k₂, v⟩ := h
    by_cases hk : k₂ = k <;> simp [modifyVal, hk, ih]

theorem containsKey_eq_false_iff (k : Slug) (l : List (Slug × α)) :
    containsKey k l = false ↔ findVal k l = none := by
  unfold containsKey
  cases findVal k l <;> simp

theorem containsKey_eq_true_iff (k : Slug) (l : List (Slug × α)) :
    containsKey k l = true ↔ ∃ v, findVal k l = some v := by
  unfold containsKey
  cases findVal k l <;> simp

theorem findVal_append_right (k : Slug) (l : List (Slug × α)) (v : α)
    (h : findVal k l = none) :
    findVal k (l ++ [(k, v)]) = some v := by
  induction l with
  | nil => simp [findVal]
  | cons hd t ih =>
    obtain ⟨k₂, v₂⟩ := hd
    by_cases hk : k₂ = k
    · simp [findVal, hk] at h
    · simp [findVal, hk] at h ⊢
      exact ih h

theorem findVal_append_ne (k k₂ : Slug) (hne : k ≠ k₂) (v : α)
    (l : List (Slug × α)) : findVal k₂ (l ++ [(k, v)]) = findVal k₂ l := by
  induction l with
  | nil => simp [findVal, hne]
  | cons hd t ih =>
    obtain ⟨k₃, v₃⟩ := hd
    by_cases hk : k₃ = k₂ <;> simp [findVal, hk, ih]

theorem findVal_insertVal_self (k : Slug) (v : α) (l : List (Slug × α)) :
    findVal k (insertVal k v l) = some v := by
  unfold insertVal
  by_cases h : containsKey k l
  · rw [if_pos h, findVal_modifyVal_self]
    rw [containsKey_eq_true_iff] at h
    obtain ⟨v₂, hv⟩ := h
    simp [hv]
  · simp at h
    rw [if_neg (by simp [h]), findVal_append_right k l v ((containsKey_eq_false_iff k l).1 h)]

theorem findVal_insertVal_ne (k k₂ : Slug) (hne : k ≠ k₂) (v : α)
    (l : List (Slug × α)) : findVal k₂ (insertVal k v l) = findVal k₂ l := by
  unfold insertVal
  by_cases h : containsKey k l
  · simp [h, findVal_modifyVal_ne k k₂ hne]
  · simp at h
    simp [h, findVal_append_ne k k₂ hne]

theorem containsKey_insertVal (k k₂ : Slug) (v : α) (l : List (Slug × α)) :
    containsKey k₂ (insertVal k v l) = (if k = k₂ then true else containsKey k₂ l) := by
  by_cases hk : k = k₂
  · subst hk
    simp [containsKey, findVal_insertVal_self]
  · simp [hk, containsKey, findVal_insertVal_ne k k₂ hk]

theorem keys_insertVal_fresh (k : Slug) (v : α) (l : List (Slug × α))
    (h : containsKey k l = false) :
    (insertVal k v l).map Prod.fst = l.map Prod.fst ++ [k] := by
  simp [insertVal, h]

theorem containsKey_iff_mem_keys (k : Slug) (l : List (Slug × α)) :
    containsKey k l = true ↔ k ∈ l.map Prod.fst := by
  induction l with
  | nil => simp [containsKey, findVal]
  | cons hd t ih =>
    obtain ⟨k₂, v⟩ := hd
    by_cases hk : k₂ = k
    · subst hk
      simp [containsKey, findVal]
    · have h₂ : containsKey k ((k₂, v) :: t) = containsKey k t := by
        simp [containsKey, findVal, hk]
      rw [h₂, ih]
      simp [Ne.symm hk]

/-! Lemmas about the command handlers. -/

theorem replay_append_one (es : List Event) (e : Event) :
    replay (es ++ [e]) = (replay es).bind (fun p => fold p e) := by
  unfold replay
  rw [List.foldlM_append]
  cases es.foldlM fold { links := [], stats := [] } <;> simp [List.foldlM]

theorem create_taken_err (s : UrlShortenerService) (url : Url) (sl cand : Slug)
    (h : containsKey sl s.links = true) :
    handle_create_short_link s url (some sl) cand =
      some (Except.error ShortenerError.SlugAlreadyInUse, s) := by
  simp [handle_create_short_link, h]

theorem create_fresh_ok (s : UrlShortenerService) (url : Url) (sl cand : Slug)
    (h : containsKey sl s.links = false) :
    handle_create_short_link s url (some sl) cand =
      some (Except.ok { slug := sl, url := url }, createdState s url sl) := by
  simp [handle_create_short_link, commitCreate, h, createdState]

theorem create_none_taken (s : UrlShortenerService) (url : Url) (cand : Slug)
    (h : containsKey cand s.links = true) :
    handle_create_short_link s url none cand = none := by
  simp [handle_create_short_link, h]

theorem create_none_fresh_ok (s : UrlShortenerService) (url : Url) (cand : Slug)
    (h : containsKey cand s.links = false) :
    handle_create_short_link s url none cand =
      some (Except.ok { slug := cand, url := url }, createdState s url cand) := by
  simp [handle_create_short_link, commitCreate, h, createdState]

/-- A successful create chose a free slug, paired it with the given url, and
produced exactly the created state. -/
theorem create_ok_elim (s : UrlShortenerService) (url : Url) (oslug : Option Slug)
    (cand : Slug) (l : ShortLink) (s₂ : UrlShortenerService)
    (hc : handle_create_short_link s url oslug cand = some (Except.ok l, s₂)) :
    containsKey l.slug s.links = false ∧ l.url = url ∧
      s₂ = createdState s url l.slug := by
  cases oslug with
  | some sl =>
    by_cases h : containsKey sl s.links = true
    · rw [create_taken_err s url sl cand h] at hc
      simp at hc
    · have h₂ : containsKey sl s.links = false := by simpa using h
      rw [create_fresh_ok s url sl cand h₂] at hc
      simp at hc
      obtain ⟨hl, hs⟩ := hc
      subst hl
      exact ⟨h₂, rfl, hs.symm⟩
  | none =>
    by_cases h : containsKey cand s.links = true
    · rw [create_none_taken s url cand h] at hc
      simp at hc
    · have h₂ : containsKey cand s.links = false := by simpa using h
      rw [create_none_fresh_ok s url cand h₂] at hc
      simp at hc
      obtain ⟨hl, hs⟩ := hc
      subst hl
      exact ⟨h₂, rfl, hs.symm⟩

/-- A failed create is a slug collision and leaves the state untouched. -/
theorem create_error_elim (s : UrlShortenerService) (url : Url) (oslug : Option Slug)
    (cand : Slug) (e : ShortenerError) (s₂ : UrlShortenerService)
    (hc : handle_create_short_link s url oslug cand = some (Except.error e, s₂)) :
    s₂ = s ∧ e = ShortenerError.SlugAlreadyInUse ∧
      ∃ sl, oslug = some sl ∧ containsKey sl s.links = true := by
  cases oslug with
  | some sl =>
    by_cases h : containsKey sl s.links = true
    · rw [create_taken_err s url sl cand h] at hc
      simp at hc
      exact ⟨hc.2.symm, hc.1.symm, sl, rfl, h⟩
    · have h₂ : containsKey sl s.links = false := by simpa using h
      rw [create_fresh_ok s url sl cand h₂] at hc
      simp at hc
  | none =>
    by_cases h : containsKey cand s.links = true
    · rw [create_none_taken s url cand h] at hc
      simp at hc
    · have h₂ : containsKey cand s.links = false := by simpa using h
      rw [create_none_fresh_ok s url cand h₂] at hc
      simp at hc

/-- A redirect never changes the link table. -/
theorem redirect_links_eq (s : UrlShortenerService) (sl : Slug) :
    (handle_redirect s sl).2.links = s.links := by
  unfold handle_redirect
  cases hfl : findVal sl s.links with
  | none => simp
  | some l₀ =>
    cases hfs : findVal sl s.stats <;> simp

/-- One step never removes a key from the link table. -/
theorem step_links_mono (s s₂ : UrlShortenerService) (c : Command) (k : Slug)
    (hstep : step s c = some s₂) (hk : containsKey k s.links = true) :
    containsKey k s₂.links = true := by
  cases c with
  | create url oslug cand =>
    cases hc : handle_create_short_link s url oslug cand with
    | none => simp [step, hc] at hstep
    | some r =>
      obtain ⟨res, s₃⟩ := r
      simp [step, hc] at hstep
      cases res with
      | ok l =>
        obtain ⟨hfree, hurl, hs₃⟩ := create_ok_elim s url oslug cand l s₃ hc
        rw [← hstep, hs₃]
        simp only [createdState, containsKey_insertVal]
        by_cases hkk : l.slug = k <;> simp [hkk, hk]
      | error e =>
        obtain ⟨hs₃, _, _⟩ := create_error_elim s url oslug cand e s₃ hc
        rw [← hstep, hs₃]
        exact hk
  | redirect sl =>
    simp only [step, Option.some_inj] at hstep
    subst hstep
    rw [redirect_links_eq]
    exact hk
  | stats sl =>
    simp only [step, Option.some_inj] at hstep
    subst hstep
    exact hk

theorem redirect_miss (s : UrlShortenerService) (sl : Slug)
    (h : findVal sl s.links = none) :
    handle_redirect s sl = (Except.error ShortenerError.SlugNotFound, s) := by
  simp [handle_redirect, h]

theorem redirect_hit_full (s : UrlShortenerService) (sl : Slug) (l₀ : ShortLink)
    (st₀ : Stats) (hl : findVal sl s.links = some l₀)
    (hs : findVal sl s.stats = some st₀) :
    handle_redirect s sl =
      (Except.ok l₀,
        { s with
            stats := modifyVal sl
              (fun st => { st with redirects := (st.redirects + 1) % 2 ^ 64 }) s.stats
            event_store := s.event_store ++ [Event.LinkRedirected sl] }) := by
  simp [handle_redirect, hl, hs]

theorem redirect_hit_nostats (s : UrlShortenerService) (sl : Slug) (l₀ : ShortLink)
    (hl : findVal sl s.links = some l₀) (hs : findVal sl s.stats = none) :
    handle_redirect s sl = (Except.ok l₀, s) := by
  simp [handle_redirect, hl, hs]

/-- Inv collects the facts that every state reachable through the public
surface satisfies: the two tables share their key set, every Stats entry
embeds the ShortLink stored under the same key, the link table binds each
key once, and replaying the recorded event store rebuilds both tables. -/
structure Inv (s : UrlShortenerService) : Prop where
  keysEq : ∀ k, containsKey k s.links = containsKey k s.stats
  agree : ∀ k st, findVal k s.stats = some st → findVal k s.links = some st.link
  nodupKeys : (s.links.map Prod.fst).Nodup
  replayEq : replay s.event_store = some { links := s.links, stats := s.stats }

theorem Inv_new : Inv UrlShortenerService.new := by
  refine ⟨?_, ?_, ?_, ?_⟩
  · intro k
    rfl
  · intro k st h
    simp [UrlShortenerService.new, findVal] at h
  · simp [UrlShortenerService.new]
  · rfl

theorem Inv_create (s : UrlShortenerService) (url : Url) (sl : Slug)
    (hfree : containsKey sl s.links = false) (hinv : Inv s) :
    Inv (createdState s url sl) := by
  obtain ⟨hkeys, hagree, hnodup, hreplay⟩ := hinv
  refine ⟨?_, ?_, ?_, ?_⟩
  · intro k
    simp only [createdState, containsKey_insertVal]
    by_cases hk : sl = k <;> simp [hk, hkeys]
  · intro k st h
    simp only [createdState] at h ⊢
    by_cases hk : sl = k
    · subst hk
      rw [findVal_insertVal_self] at h ⊢
      simp at h
      simp [← h]
    · rw [findVal_insertVal_ne sl k hk] at h ⊢
      exact hagree k st h
  · simp only [createdState]
    rw [keys_insertVal_fresh sl _ s.links hfree]
    rw [List.nodup_append]
    refine ⟨hnodup, List.nodup_singleton _, ?_⟩
    intro a ha hb
    simp at hb
    subst hb
    rw [← containsKey_iff_mem_keys] at ha
    rw [ha] at hfree
    cases hfree
  · simp only [createdState]
    rw [replay_append_one, hreplay]
    simp [fold]

theorem Inv_redirect (s : UrlShortenerService) (sl : Slug) (hinv : Inv s) :
    Inv (handle_redirect s sl).2 := by
  obtain ⟨hkeys, hagree, hnodup, hreplay⟩ := hinv
  cases hl : findVal sl s.links with
  | none =>
    rw [redirect_miss s sl hl]
    exact ⟨hkeys, hagree, hnodup, hreplay⟩
  | some l₀ =>
    cases hs : findVal sl s.stats with
    | none =>
      rw [redirect_hit_nostats s sl l₀ hl hs]
      exact ⟨hkeys, hagree, hnodup, hreplay⟩
    | some st₀ =>
      rw [redirect_hit_full s sl l₀ st₀ hl hs]
      refine ⟨?_, ?_, ?_, ?_⟩
      · intro k
        simp [containsKey_modifyVal, hkeys]
      · intro k st h
        simp only at h ⊢
        by_cases hk : sl = k
        · subst hk
          rw [findVal_modifyVal_self, hs] at h
          simp at h
          rw [← h]
          exact hagree sl st₀ hs
        · rw [findVal_modifyVal_ne sl k hk] at h
          exact hagree k st h
      · exact hnodup
      · simp only
        rw [replay_append_one, hreplay]
        have hcs : containsKey sl s.stats = true := by
          rw [containsKey_eq_true_iff]
          exact ⟨st₀, hs⟩
        simp [fold, hcs]

theorem Inv_step (s s₂ : UrlShortenerService) (c : Command)
    (hstep : step s c = some s₂) (hinv : Inv s) : Inv s₂ := by
  cases c with
  | create url oslug cand =>
    cases hc : handle_create_short_link s url oslug cand with
    | none => simp [step, hc] at hstep
    | some r =>
      obtain ⟨res, s₃⟩ := r
      simp [step, hc] at hstep
      cases res with
      | ok l =>
        obtain ⟨hfree, hurl, hs₃⟩ := create_ok_elim s url oslug cand l s₃ hc
        rw [← hstep, hs₃]
        exact Inv_create s url l.slug hfree hinv
      | error e =>
        obtain ⟨hs₃, _, _⟩ := create_error_elim s url oslug cand e s₃ hc
        rw [← hstep, hs₃]
        exact hinv
  | redirect sl =>
    simp only [step, Option.some_inj] at hstep
    rw [← hstep]
    exact Inv_redirect s sl hinv
  | stats sl =>
    simp only [step, Option.some_inj] at hstep
    rw [← hstep]
    exact hinv

theorem run_Inv (cmds : List Command) (s s₂ : UrlShortenerService)
    (hrun : run s cmds = some s₂) (hinv : Inv s) : Inv s₂ := by
  induction cmds generalizing s with
  | nil =>
    simp [run] at hrun
    rw [← hrun]
    exact hinv
  | cons c cs ih =>
    simp only [run] at hrun
    cases hstep : step s c with
    | none => rw [hstep] at hrun; simp at hrun
    | some s₃ =>
      rw [hstep] at hrun
      simp only [Option.some_bind] at hrun
      exact ih s₃ hrun (Inv_step s s₃ c hstep hinv)

/-- Every state reached from the fresh service satisfies the invariant. -/
theorem reachable_Inv (cmds : List Command) (s : UrlShortenerService)
    (hrun : run UrlShortenerService.new cmds = some s) : Inv s :=
  run_Inv cmds UrlShortenerService.new s hrun Inv_new

/-- While the link for `sl` is present and its Stats counter is `k`, `n`
further redirects keep the link and raise the counter to `k + n` (all counts
staying below the u64 bound). -/
theorem iterRedirect_stats (sl : Slug) (l : ShortLink) :
    ∀ (n : Nat) (s : UrlShortenerService) (k : Nat), n + k < 2 ^ 64 →
      findVal sl s.links = some l →
      findVal sl s.stats = some { link := l, redirects := k } →
      findVal sl (iterRedirect s sl n).links = some l ∧
      findVal sl (iterRedirect s sl n).stats = some { link := l, redirects := k + n }
  | 0, s, k, hbound, hl, hs => by
    simp [iterRedirect, hl, hs]
  | n + 1, s, k, hbound, hl, hs => by
    have hred := redirect_hit_full s sl l { link := l, redirects := k } hl hs
    have hl₂ : findVal sl (handle_redirect s sl).2.links = some l := by
      rw [redirect_links_eq]
      exact hl
    have hs₂ : findVal sl (handle_redirect s sl).2.stats =
        some { link := l, redirects := k + 1 } := by
      rw [hred]
      simp only
      rw [findVal_modifyVal_self, hs]
      have hk : (k + 1) % 2 ^ 64 = k + 1 := Nat.mod_eq_of_lt (by omega)
      simp [hk]
      omega
    have hrec := iterRedirect_stats sl l n (handle_redirect s sl).2 (k + 1)
      (by omega) hl₂ hs₂
    have hiter : iterRedirect s sl (n + 1) = iterRedirect (handle_redirect s sl).2 sl n := rfl
    rw [hiter]
    refine ⟨hrec.1, ?_⟩
    rw [hrec.2]
    have : k + 1 + n = k + (n + 1) := by omega
    rw [this]

/-- Every ShortLink a run returns from a successful create carried a slug
that was free when the run started, and those slugs are pairwise distinct. -/
theorem runOutputs_fresh (cmds : List Command) :
    ∀ (s sf : UrlShortenerService) (ls : List ShortLink),
      runOutputs s cmds = some (sf, ls) →
      (∀ l ∈ ls, containsKey l.slug s.links = false) ∧
      (ls.map ShortLink.slug).Nodup := by
  induction cmds with
  | nil =>
    intro s sf ls h
    simp [runOutputs] at h
    obtain ⟨h₁, h₂⟩ := h
    subst h₂
    simp
  | cons c cs ih =>
    intro s sf ls h
    cases c with
    | create url oslug cand =>
      cases hc : handle_create_short_link s url oslug cand with
      | none => simp [runOutputs, hc] at h
      | some r =>
        obtain ⟨res, s₃⟩ := r
        cases res with
        | ok l =>
          simp only [runOutputs, hc] at h
          cases hrec : runOutputs s₃ cs with
          | none => rw [hrec] at h; simp at h
          | some r₂ =>
            obtain ⟨sf₂, ls₂⟩ := r₂
            rw [hrec] at h
            simp at h
            obtain ⟨hsf, hls⟩ := h
            obtain ⟨hfresh, hnodup⟩ := ih s₃ sf₂ ls₂ hrec
            obtain ⟨hfree, hurl, hs₃⟩ := create_ok_elim s url oslug cand l s₃ hc
            have hstep₃ : ∀ k, containsKey k s₃.links = false →
                containsKey k s.links = false := by
              intro k hk
              rw [hs₃] at hk
              simp only [createdState, containsKey_insertVal] at hk
              by_cases hkk : l.slug = k
              · simp [hkk] at hk
              · simpa [hkk] using hk
            have hmem : containsKey l.slug s₃.links = true := by
              rw [hs₃]
              simp [createdState, containsKey_insertVal]
            constructor
            · intro l₂ hl₂
              rw [← hls] at hl₂
              rcases List.mem_cons.1 hl₂ with heq | hmem₂
              · rw [heq]
                exact hfree
              · exact hstep₃ l₂.slug (hfresh l₂ hmem₂)
            · rw [← hls]
              simp only [List.map_cons, List.nodup_cons]
              refine ⟨?_, hnodup⟩
              intro hcontra
              obtain ⟨l₂, hl₂mem, hl₂slug⟩ := List.mem_map.1 hcontra
              have := hfresh l₂ hl₂mem
              rw [hl₂slug, hmem] at this
              cases this
        | error e =>
          simp only [runOutputs, hc] at h
          obtain ⟨hs₃, _, _⟩ := create_error_elim s url oslug cand e s₃ hc
          rw [hs₃] at h
          exact ih s sf ls h
    | redirect sl =>
      simp only [runOutputs] at h
      obtain ⟨hfresh, hnodup⟩ := ih (handle_redirect s sl).2 sf ls h
      refine ⟨?_, hnodup⟩
      intro l₂ hl₂
      have := hfresh l₂ hl₂
      rw [redirect_links_eq] at this
      exact this
    | stats sl =>
      simp only [runOutputs] at h
      exact ih s sf ls h

/-- The final state of `runOutputs` is the final state of `run`. -/
theorem runOutputs_run (cmds : List Command) :
    ∀ (s sf : UrlShortenerService) (ls : List ShortLink),
      runOutputs s cmds = some (sf, ls) → run s cmds = some sf := by
  induction cmds with
  | nil =>
    intro s sf ls h
    simp [runOutputs] at h
    simp [run, h.1]
  | cons c cs ih =>
    intro s sf ls h
    cases c with
    | create url oslug cand =>
      cases hc : handle_create_short_link s url oslug cand with
      | none => simp [runOutputs, hc] at h
      | some r =>
        obtain ⟨res, s₃⟩ := r
        have hstep : step s (Command.create url oslug cand) = some s₃ := by
          simp [step, hc]
        cases res with
        | ok l =>
          simp only [runOutputs, hc] at h
          cases hrec : runOutputs s₃ cs with
          | none => rw [hrec] at h; simp at h
          | some r₂ =>
            obtain ⟨sf₂, ls₂⟩ := r₂
            rw [hrec] at h
            simp at h
            simp only [run, hstep, Option.some_bind]
            rw [← h.1]
            exact ih s₃ sf₂ ls₂ hrec
        | error e =>
          simp only [runOutputs, hc] at h
          simp only [run, hstep, Option.some_bind]
          exact ih s₃ sf ls h
    | redirect sl =>
      simp only [runOutputs] at h
      simp only [run, step, Option.some_bind]
      exact ih (handle_redirect s sl).2 sf ls h
    | stats sl =>
      simp only [runOutputs] at h
      simp only [run, step, Option.some_bind]
      exact ih s sf ls h

/-! Claim theorems. -/

/-- C1: across any call sequence from the empty service, no two successful
`handle_create_short_link` calls return ShortLinks with the same slug, and
the projected link table binds every slug at most once. -/
theorem c1_no_duplicate_slugs (cmds : List Command) (sf : UrlShortenerService)
    (ls : List ShortLink)
    (h : runOutputs UrlShortenerService.new cmds = some (sf, ls)) :
    (ls.map ShortLink.slug).Nodup ∧ (sf.links.map Prod.fst).Nodup :=
  ⟨(runOutputs_fresh cmds UrlShortenerService.new sf ls h).2,
   (run_Inv cmds UrlShortenerService.new sf
      (runOutputs_run cmds UrlShortenerService.new sf ls h) Inv_new).nodupKeys⟩

theorem c1_no_duplicate_slugs_witness :
    runOutputs UrlShortenerService.new
        [Command.create (Url.mk "u") (some (Slug.mk "a")) (Slug.mk "x"),
         Command.create (Url.mk "v") none (Slug.mk "b")] =
      some (createdState (createdState UrlShortenerService.new (Url.mk "u") (Slug.mk "a"))
              (Url.mk "v") (Slug.mk "b"),
            [ShortLink.mk (Slug.mk "a") (Url.mk "u"),
             ShortLink.mk (Slug.mk "b") (Url.mk "v")]) ∧
    ([ShortLink.mk (Slug.mk "a") (Url.mk "u"),
      ShortLink.mk (Slug.mk "b") (Url.mk "v")].map ShortLink.slug).Nodup :=
  ⟨by decide,
   (c1_no_duplicate_slugs
      [Command.create (Url.mk "u") (some (Slug.mk "a")) (Slug.mk "x"),
       Command.create (Url.mk "v") none (Slug.mk "b")]
      (createdState (createdState UrlShortenerService.new (Url.mk "u") (Slug.mk "a"))
        (Url.mk "v") (Slug.mk "b"))
      [ShortLink.mk (Slug.mk "a") (Url.mk "u"),
       ShortLink.mk (Slug.mk "b") (Url.mk "v")] (by decide)).1⟩

/-- C2: replay is deterministic, folding one more event commutes with
appending it to the replayed sequence, and in every reachable state the live
tables coincide with the full replay of the recorded event store. -/
theorem c2_replay_rebuilds_state (E : List Event) (e : Event)
    (cmds : List Command) (s : UrlShortenerService)
    (hrun : run UrlShortenerService.new cmds = some s) :
    replay E = replay E ∧
    replay (E ++ [e]) = (replay E).bind (fun p => fold p e) ∧
    replay s.event_store = some { links := s.links, stats := s.stats } :=
  ⟨rfl, replay_append_one E e, (reachable_Inv cmds s hrun).replayEq⟩

theorem c2_replay_rebuilds_state_witness :
    run UrlShortenerService.new
        [Command.create (Url.mk "u") (some (Slug.mk "a")) (Slug.mk "x"),
         Command.redirect (Slug.mk "a")] =
      some
        { links := [(Slug.mk "a", ShortLink.mk (Slug.mk "a") (Url.mk "u"))]
          stats := [(Slug.mk "a", Stats.mk (ShortLink.mk (Slug.mk "a") (Url.mk "u")) 1)]
          event_store := [Event.LinkCreated (ShortLink.mk (Slug.mk "a") (Url.mk "u")),
                          Event.LinkRedirected (Slug.mk "a")] } ∧
    replay [Event.LinkCreated (ShortLink.mk (Slug.mk "a") (Url.mk "u")),
            Event.LinkRedirected (Slug.mk "a")] =
      some { links := [(Slug.mk "a", ShortLink.mk (Slug.mk "a") (Url.mk "u"))]
             stats := [(Slug.mk "a", Stats.mk (ShortLink.mk (Slug.mk "a") (Url.mk "u")) 1)] } :=
  ⟨by decide,
   (c2_replay_rebuilds_state [] (Event.LinkRedirected (Slug.mk "a"))
      [Command.create (Url.mk "u") (some (Slug.mk "a")) (Slug.mk "x"),
       Command.redirect (Slug.mk "a")]
      { links := [(Slug.mk "a", ShortLink.mk (Slug.mk "a") (Url.mk "u"))]
        stats := [(Slug.mk "a", Stats.mk (ShortLink.mk (Slug.mk "a") (Url.mk "u")) 1)]
        event_store := [Event.LinkCreated (ShortLink.mk (Slug.mk "a") (Url.mk "u")),
                        Event.LinkRedirected (Slug.mk "a")] } (by decide)).2.2⟩

/-- C3: a successful create starts its slug at zero redirects, and after n
further successful redirects of that slug (and nothing else touching it) the
stats query reports exactly n, every one of those redirect calls returning
Ok (counts staying below the u64 bound). -/
theorem c3_counter_correct (s : UrlShortenerService) (url : Url)
    (oslug : Option Slug) (cand : Slug) (l : ShortLink)
    (s₂ : UrlShortenerService) (n : Nat) (hn : n < 2 ^ 64)
    (hc : handle_create_short_link s url oslug cand = some (Except.ok l, s₂)) :
    get_stats s₂ l.slug = Except.ok { link := l, redirects := 0 } ∧
    get_stats (iterRedirect s₂ l.slug n) l.slug =
      Except.ok { link := l, redirects := n } ∧
    (handle_redirect (iterRedirect s₂ l.slug n) l.slug).1 = Except.ok l := by
  obtain ⟨hfree, hurl, hs₂⟩ := create_ok_elim s url oslug cand l s₂ hc
  have hleq : ShortLink.mk l.slug url = l := by rw [← hurl]
  have hl₂ : findVal l.slug s₂.links = some l := by
    rw [hs₂]
    simp only [createdState]
    rw [findVal_insertVal_self, hleq]
  have hst₂ : findVal l.slug s₂.stats = some { link := l, redirects := 0 } := by
    rw [hs₂]
    simp only [createdState]
    rw [findVal_insertVal_self, hleq]
  have hiter := iterRedirect_stats l.slug l n s₂ 0 (by omega) hl₂ hst₂
  obtain ⟨hil, his⟩ := hiter
  rw [Nat.zero_add] at his
  refine ⟨?_, ?_, ?_⟩
  · simp [get_stats, hst₂]
  · simp [get_stats, his]
  · rw [redirect_hit_full (iterRedirect s₂ l.slug n) l.slug l
      { link := l, redirects := n } hil his]

theorem c3_counter_correct_witness :
    2 < 2 ^ 64 ∧
    handle_create_short_link UrlShortenerService.new (Url.mk "u")
        (some (Slug.mk "a")) (Slug.mk "x") =
      some (Except.ok (ShortLink.mk (Slug.mk "a") (Url.mk "u")),
        createdState UrlShortenerService.new (Url.mk "u") (Slug.mk "a")) ∧
    get_stats
        (iterRedirect (createdState UrlShortenerService.new (Url.mk "u") (Slug.mk "a"))
          (Slug.mk "a") 2) (Slug.mk "a") =
      Except.ok { link := ShortLink.mk (Slug.mk "a") (Url.mk "u"), redirects := 2 } :=
  ⟨by decide, rfl,
   (c3_counter_correct UrlShortenerService.new (Url.mk "u") (some (Slug.mk "a"))
      (Slug.mk "x") (ShortLink.mk (Slug.mk "a") (Url.mk "u"))
      (createdState UrlShortenerService.new (Url.mk "u") (Slug.mk "a")) 2
      (by decide) rfl).2.1⟩

/-- C4: a create with an explicitly requested slug fails with
SlugAlreadyInUse and returns the state entirely untouched exactly when the
slug is already bound in the link table, and succeeds otherwise. -/
theorem c4_slug_collision (s : UrlShortenerService) (url : Url) (sl cand : Slug) :
    handle_create_short_link s url (some sl) cand =
      if containsKey sl s.links then
        some (Except.error ShortenerError.SlugAlreadyInUse, s)
      else
        some (Except.ok { slug := sl, url := url }, createdState s url sl) := by
  by_cases h : containsKey sl s.links = true
  · rw [create_taken_err s url sl cand h, if_pos h]
  · have h₂ : containsKey sl s.links = false := by simpa using h
    rw [create_fresh_ok s url sl cand h₂, if_neg h]

/-- C5: a redirect of a slug absent from the link table fails with
SlugNotFound and returns the state entirely untouched (so no event is
appended), and a stats query for a slug absent from the stats table fails
with SlugNotFound (the query is state-free by its type). -/
theorem c5_unknown_slug (s : UrlShortenerService) (sl : Slug) :
    (containsKey sl s.links = false →
      handle_redirect s sl = (Except.error ShortenerError.SlugNotFound, s)) ∧
    (containsKey sl s.stats = false →
      get_stats s sl = Except.error ShortenerError.SlugNotFound) := by
  constructor
  · intro h
    exact redirect_miss s sl ((containsKey_eq_false_iff sl s.links).1 h)
  · intro h
    rw [containsKey_eq_false_iff] at h
    simp [get_stats, h]

theorem c5_unknown_slug_witness :
    handle_redirect UrlShortenerService.new (Slug.mk "z") =
      (Except.error ShortenerError.SlugNotFound, UrlShortenerService.new) ∧
    get_stats UrlShortenerService.new (Slug.mk "z") =
      Except.error ShortenerError.SlugNotFound :=
  ⟨(c5_unknown_slug UrlShortenerService.new (Slug.mk "z")).1 (by decide),
   (c5_unknown_slug UrlShortenerService.new (Slug.mk "z")).2 (by decide)⟩

/-- C6: contrary to the claim, the command handler performs no URL
validation at all: it accepts the empty string (which is not a well-formed
scheme-plus-host URL) and returns Ok, never InvalidUrl, recording a
LinkCreated event for the malformed url. -/
theorem c6_invalid_url_accepted :
    handle_create_short_link UrlShortenerService.new (Url.mk "")
        (some (Slug.mk "abc")) (Slug.mk "0") =
      some (Except.ok (ShortLink.mk (Slug.mk "abc") (Url.mk "")),
        createdState UrlShortenerService.new (Url.mk "") (Slug.mk "abc")) := rfl

/-- C7: contrary to the claim, the slugless allocation loop does not retry:
when the drawn candidate is already bound, the loop condition keeps testing
the stale outer binding (the fresh draw is shadowed and dropped), so the
call diverges, which the embedding renders as `none`. -/
theorem c7_retry_loop_diverges :
    containsKey (Slug.mk "42")
      (createdState UrlShortenerService.new (Url.mk "u") (Slug.mk "42")).links = true ∧
    handle_create_short_link
        (createdState UrlShortenerService.new (Url.mk "u") (Slug.mk "42"))
        (Url.mk "v") none (Slug.mk "42") = none :=
  ⟨by decide, rfl⟩

/-- C8: contrary to the claim, folding a LinkRedirected whose slug has no
Stats entry is a silent no-op, not a fatal error: on a state whose link
table has the slug but whose stats table does not, handle_redirect returns
Ok with the counter increment and the event append both skipped. -/
theorem c8_missing_stats_silent_noop :
    handle_redirect
        (UrlShortenerService.mk
          [(Slug.mk "a", ShortLink.mk (Slug.mk "a") (Url.mk "u"))] [] [])
        (Slug.mk "a") =
      (Except.ok (ShortLink.mk (Slug.mk "a") (Url.mk "u")),
        UrlShortenerService.mk
          [(Slug.mk "a", ShortLink.mk (Slug.mk "a") (Url.mk "u"))] [] []) := rfl

/-- C9: in every reachable state, redirecting a slug bound in the link table
returns exactly the stored ShortLink, keeps the link table, keeps every
other stats entry, bumps the redirect counter of that slug by one (u64
arithmetic), and appends exactly one LinkRedirected event. -/
theorem c9_redirect_frame (cmds : List Command) (s : UrlShortenerService)
    (sl : Slug) (l : ShortLink)
    (hrun : run UrlShortenerService.new cmds = some s)
    (hl : findVal sl s.links = some l) :
    (handle_redirect s sl).1 = Except.ok l ∧
    (handle_redirect s sl).2.links = s.links ∧
    (handle_redirect s sl).2.event_store =
      s.event_store ++ [Event.LinkRedirected sl] ∧
    (∀ k, k ≠ sl → findVal k (handle_redirect s sl).2.stats = findVal k s.stats) ∧
    (∃ st, findVal sl s.stats = some st ∧
      findVal sl (handle_redirect s sl).2.stats =
        some { link := st.link, redirects := (st.redirects + 1) % 2 ^ 64 }) := by
  have hinv := reachable_Inv cmds s hrun
  have hcl : containsKey sl s.links = true := by
    rw [containsKey_eq_true_iff]
    exact ⟨l, hl⟩
  have hcs : containsKey sl s.stats = true := by
    rw [← hinv.keysEq]
    exact hcl
  rw [containsKey_eq_true_iff] at hcs
  obtain ⟨st₀, hst₀⟩ := hcs
  rw [redirect_hit_full s sl l st₀ hl hst₀]
  refine ⟨rfl, rfl, rfl, ?_, ?_⟩
  · intro k hk
    simp only
    exact findVal_modifyVal_ne sl k (Ne.symm hk) _ s.stats
  · refine ⟨st₀, hst₀, ?_⟩
    simp only
    rw [findVal_modifyVal_self, hst₀]
    rfl

theorem c9_redirect_frame_witness :
    run UrlShortenerService.new
        [Command.create (Url.mk "u") (some (Slug.mk "a")) (Slug.mk "x")] =
      some (createdState UrlShortenerService.new (Url.mk "u") (Slug.mk "a")) ∧
    findVal (Slug.mk "a")
        (createdState UrlShortenerService.new (Url.mk "u") (Slug.mk "a")).links =
      some (ShortLink.mk (Slug.mk "a") (Url.mk "u")) ∧
    (handle_redirect (createdState UrlShortenerService.new (Url.mk "u") (Slug.mk "a"))
        (Slug.mk "a")).1 = Except.ok (ShortLink.mk (Slug.mk "a") (Url.mk "u")) :=
  ⟨by decide, by decide,
   (c9_redirect_frame
      [Command.create (Url.mk "u") (some (Slug.mk "a")) (Slug.mk "x")]
      (createdState UrlShortenerService.new (Url.mk "u") (Slug.mk "a"))
      (Slug.mk "a") (ShortLink.mk (Slug.mk "a") (Url.mk "u"))
      (by decide) (by decide)).1⟩

/-- C10: in every state reachable from the fresh service through the public
surface, the link table and the stats table bind exactly the same slugs, and
the ShortLink embedded in each Stats entry is the one the link table stores
under the same slug. -/
theorem c10_tables_agree (cmds : List Command) (s : UrlShortenerService)
    (hrun : run UrlShortenerService.new cmds = some s) :
    (∀ k, containsKey k s.links = containsKey k s.stats) ∧
    (∀ k st, findVal k s.stats = some st → findVal k s.links = some st.link) :=
  ⟨(reachable_Inv cmds s hrun).keysEq, (reachable_Inv cmds s hrun).agree⟩

theorem c10_tables_agree_witness :
    run UrlShortenerService.new
        [Command.create (Url.mk "u") (some (Slug.mk "a")) (Slug.mk "x"),
         Command.redirect (Slug.mk "a")] =
      some
        { links := [(Slug.mk "a", ShortLink.mk (Slug.mk "a") (Url.mk "u"))]
          stats := [(Slug.mk "a", Stats.mk (ShortLink.mk (Slug.mk "a") (Url.mk "u")) 1)]
          event_store := [Event.LinkCreated (ShortLink.mk (Slug.mk "a") (Url.mk "u")),
                          Event.LinkRedirected (Slug.mk "a")] } ∧
    containsKey (Slug.mk "a")
        [(Slug.mk "a", ShortLink.mk (Slug.mk "a") (Url.mk "u"))] =
      containsKey (Slug.mk "a")
        [(Slug.mk "a", Stats.mk (ShortLink.mk (Slug.mk "a") (Url.mk "u")) 1)] :=
  ⟨by decide,
   (c10_tables_agree
      [Command.create (Url.mk "u") (some (Slug.mk "a")) (Slug.mk "x"),
       Command.redirect (Slug.mk "a")]
      { links := [(Slug.mk "a", ShortLink.mk (Slug.mk "a") (Url.mk "u"))]
        stats := [(Slug.mk "a", Stats.mk (ShortLink.mk (Slug.mk "a") (Url.mk "u")) 1)]
        event_store := [Event.LinkCreated (ShortLink.mk (Slug.mk "a") (Url.mk "u")),
                        Event.LinkRedirected (Slug.mk "a")] }
      (by decide)).1 (Slug.mk "a")⟩

end LinkShortener
